import Mathlib

/-!
Verification of the scoring core of the prompt-engineering toolkit.

Text is modelled as `List Char`; Python floats are modelled as exact
rationals (`ℚ`) where the source only performs field operations, and as
real numbers (`ℝ`) where the source takes square roots or exponentials.
Python's `random` and `uuid`/`time` effects are modelled by explicitly
passed oracles, as the spec (§5, §9) requires randomness to be injectable.
-/

namespace PromptEngineeringLab

/-! ### Tokenizer (evaluator.py) -/

/-- A token, i.e. one word of lowered text. -/
abbrev Tok := List Char

/-- Helper for `py_split`: walks the character list, `acc` holding the
(reversed) non-whitespace run currently being read. -/
def split_aux (acc : List Char) : List Char → List (List Char)
  | [] => if acc = [] then [] else [acc.reverse]
  | c :: rest =>
      if c.isWhitespace then
        if acc = [] then split_aux [] rest else acc.reverse :: split_aux [] rest
      else split_aux (c :: acc) rest

/-- Python `str.split()` with no argument: the maximal runs of
non-whitespace characters, in order; separators produce no empty tokens. -/
def py_split (s : List Char) : List (List Char) := split_aux [] s

/-- Python `str.strip()`: drop whitespace from both ends. -/
def py_strip (s : List Char) : List Char :=
  ((s.dropWhile Char.isWhitespace).reverse.dropWhile Char.isWhitespace).reverse

/-- `_tokenize` from evaluator.py: `text.lower().split()`. -/
def tokenize (text : List Char) : List Tok :=
  py_split (text.map Char.toLower)

/-- `_ngrams` from evaluator.py:
`[tuple(tokens[i : i + n]) for i in range(len(tokens) - n + 1)]`.
Python evaluates `len(tokens) - n + 1` in ℤ; over ℕ the same value is
`tokens.length + 1 - n` (zero, hence no n-grams, when `length < n`). -/
def ngrams (tokens : List Tok) (n : ℕ) : List (List Tok) :=
  (List.range (tokens.length + 1 - n)).map fun i => (tokens.drop i).take n

/-! ### ROUGE scoring (evaluator.py, `RougeScorer`) -/

/-- `RougeScore`: precision, recall and F1 of a ROUGE variant. -/
structure RougeScore where
  precision : ℚ := 0
  «recall» : ℚ := 0
  f1 : ℚ := 0
deriving DecidableEq, Repr

/-- The overlap loop of `_ngram_score`:
`for ng, count in cand_counts.items(): overlap += min(count, ref_counts.get(ng, 0))`.
The two dicts hold multiset counts of the n-gram lists, so the loop sums
`min` of the counts over the distinct candidate n-grams. -/
def overlap_count (cand ref : List (List Tok)) : ℕ :=
  ∑ ng ∈ cand.toFinset, min (cand.count ng) (ref.count ng)

/-- `RougeScorer._ngram_score` from evaluator.py. -/
def ngram_score (candidate reference : List Char) (n : ℕ) : RougeScore :=
  let cand_tokens := tokenize candidate
  let ref_tokens := tokenize reference
  if cand_tokens = [] ∨ ref_tokens = [] then ⟨0, 0, 0⟩ else
  let cand_ngrams := ngrams cand_tokens n
  let ref_ngrams := ngrams ref_tokens n
  if cand_ngrams = [] ∨ ref_ngrams = [] then ⟨0, 0, 0⟩ else
  let overlap := overlap_count cand_ngrams ref_ngrams
  let precision : ℚ := overlap / cand_ngrams.length
  let «recall» : ℚ := overlap / ref_ngrams.length
  let f1 : ℚ :=
    if precision + «recall» > 0 then 2 * precision * «recall» / (precision + «recall») else 0
  ⟨precision, «recall», f1⟩

/-- `_lcs_length` from evaluator.py: the standard LCS dynamic program
`dp[i][j] = dp[i-1][j-1] + 1` on a token match and
`max (dp[i-1][j]) (dp[i][j-1])` otherwise, written as the structural
recursion that the table memoises. -/
def lcs_length : List Tok → List Tok → ℕ
  | [], _ => 0
  | _ :: _, [] => 0
  | x :: xs, y :: ys =>
      if x = y then lcs_length xs ys + 1
      else max (lcs_length xs (y :: ys)) (lcs_length (x :: xs) ys)

/-- `RougeScorer.rouge_l` from evaluator.py. -/
def rouge_l (candidate reference : List Char) : RougeScore :=
  let cand_tokens := tokenize candidate
  let ref_tokens := tokenize reference
  if cand_tokens = [] ∨ ref_tokens = [] then ⟨0, 0, 0⟩ else
  let lcs := lcs_length cand_tokens ref_tokens
  let precision : ℚ := lcs / cand_tokens.length
  let «recall» : ℚ := lcs / ref_tokens.length
  let f1 : ℚ :=
    if precision + «recall» > 0 then 2 * precision * «recall» / (precision + «recall») else 0
  ⟨precision, «recall», f1⟩

/-! ### Spec-side restatements for claim C1 -/

/-- The n-gram score exactly as §4.2 of the spec words it: overlap is the
sum over all distinct n-grams of `min (candidate count) (reference count)`;
precision divides by the number of candidate n-grams
(`len(tokens) - n + 1`), recall by the number of reference n-grams; f1 is
`2·P·R/(P+R)` or 0; and if either token sequence is empty or shorter than
`n`, the all-zero score is returned. -/
def ngram_score_spec (candidate reference : List Char) (n : ℕ) : RougeScore :=
  let cand_tokens := tokenize candidate
  let ref_tokens := tokenize reference
  if cand_tokens = [] ∨ ref_tokens = [] ∨
      cand_tokens.length < n ∨ ref_tokens.length < n then ⟨0, 0, 0⟩ else
  let cand_ngrams := ngrams cand_tokens n
  let ref_ngrams := ngrams ref_tokens n
  let overlap : ℕ :=
    ∑ ng ∈ (cand_ngrams ++ ref_ngrams).toFinset,
      min (cand_ngrams.count ng) (ref_ngrams.count ng)
  let precision : ℚ := overlap / (cand_tokens.length + 1 - n : ℕ)
  let «recall» : ℚ := overlap / (ref_tokens.length + 1 - n : ℕ)
  let f1 : ℚ :=
    if precision + «recall» > 0 then 2 * precision * «recall» / (precision + «recall») else 0
  ⟨precision, «recall», f1⟩

/-- Harmonic mean of precision and recall, defined as 0 when `p + r = 0`
(§3 of the spec). -/
def harmonic_f1 (p r : ℚ) : ℚ :=
  if p + r > 0 then 2 * p * r / (p + r) else 0

/-- All three components of a score lie in `[0, 1]`. -/
def score_in_unit (s : RougeScore) : Prop :=
  0 ≤ s.precision ∧ s.precision ≤ 1 ∧ 0 ≤ s.recall ∧ s.recall ≤ 1 ∧
    0 ≤ s.f1 ∧ s.f1 ≤ 1

/-! ### Helper lemmas -/

lemma sum_count_toFinset_eq_length (l : List (List Tok)) :
    ∑ ng ∈ l.toFinset, l.count ng = l.length := by
  induction l with
  | nil => simp
  | cons x xs ih =>
      rw [List.toFinset_cons]
      have step1 : ∑ ng ∈ insert x xs.toFinset, (x :: xs).count ng
          = ∑ ng ∈ insert x xs.toFinset, (xs.count ng + if x = ng then 1 else 0) :=
        Finset.sum_congr rfl (fun ng _ => by rw [List.count_cons]; congr 1; simp [beq_iff_eq])
      rw [step1, Finset.sum_add_distrib]
      by_cases hx : x ∈ xs
      · rw [Finset.insert_eq_self.2 (List.mem_toFinset.2 hx), ih,
          Finset.sum_ite_eq xs.toFinset x (fun _ => 1), if_pos (List.mem_toFinset.2 hx)]
        simp
      · have hx' : x ∉ xs.toFinset := by simpa using hx
        rw [Finset.sum_insert hx', Finset.sum_insert hx', ih,
          Finset.sum_ite_eq xs.toFinset x (fun _ => 1), if_neg hx',
          List.count_eq_zero_of_not_mem hx]
        simp

lemma overlap_le_left (c r : List (List Tok)) : overlap_count c r ≤ c.length := by
  calc overlap_count c r ≤ ∑ ng ∈ c.toFinset, c.count ng :=
        Finset.sum_le_sum fun ng _ => min_le_left _ _
    _ = c.length := sum_count_toFinset_eq_length c

lemma overlap_le_right (c r : List (List Tok)) : overlap_count c r ≤ r.length := by
  have h1 : overlap_count c r ≤ ∑ ng ∈ c.toFinset, r.count ng :=
    Finset.sum_le_sum fun ng _ => min_le_right _ _
  have h2 : ∑ ng ∈ c.toFinset, r.count ng ≤ ∑ ng ∈ (c.toFinset ∪ r.toFinset), r.count ng :=
    Finset.sum_le_sum_of_subset (Finset.subset_union_left)
  have h3 : ∑ ng ∈ (c.toFinset ∪ r.toFinset), r.count ng = ∑ ng ∈ r.toFinset, r.count ng := by
    refine (Finset.sum_subset Finset.subset_union_right ?_).symm
    intro x _ hx
    exact List.count_eq_zero_of_not_mem (by simpa using hx)
  calc overlap_count c r ≤ ∑ ng ∈ c.toFinset, r.count ng := h1
    _ ≤ ∑ ng ∈ (c.toFinset ∪ r.toFinset), r.count ng := h2
    _ = ∑ ng ∈ r.toFinset, r.count ng := h3
    _ = r.length := sum_count_toFinset_eq_length r

/-- The spec's sum over all distinct n-grams equals the code's sum over the
distinct candidate n-grams: for an n-gram outside the candidate list the
candidate count, hence the `min`, is zero. -/
lemma overlap_spec_eq (c r : List (List Tok)) :
    ∑ ng ∈ (c ++ r).toFinset, min (c.count ng) (r.count ng) = overlap_count c r := by
  unfold overlap_count
  refine (Finset.sum_subset ?_ ?_).symm
  · intro x hx
    simp only [List.toFinset_append, Finset.mem_union]
    exact Or.inl hx
  · intro x _ hx
    have : c.count x = 0 := List.count_eq_zero_of_not_mem (by simpa using hx)
    simp [this]

lemma harmonic_f1_mem_unit {p r : ℚ} (hp0 : 0 ≤ p) (hp1 : p ≤ 1) (hr0 : 0 ≤ r) (hr1 : r ≤ 1) :
    0 ≤ harmonic_f1 p r ∧ harmonic_f1 p r ≤ 1 := by
  unfold harmonic_f1
  split_ifs with h
  · constructor
    · positivity
    · rw [div_le_one h]
      nlinarith
  · exact ⟨le_refl 0, zero_le_one⟩

/-- Shape of both scorers' non-degenerate branch: given overlap `o` bounded
by both denominators, the assembled score is in the unit cube and its f1 is
the harmonic mean of its own precision and recall. -/
lemma score_shape (o lc lr : ℕ) (h1 : o ≤ lc) (h2 : o ≤ lr) :
    score_in_unit ⟨(o : ℚ) / lc, (o : ℚ) / lr,
      if (o : ℚ) / lc + (o : ℚ) / lr > 0 then
        2 * ((o : ℚ) / lc) * ((o : ℚ) / lr) / ((o : ℚ) / lc + (o : ℚ) / lr) else 0⟩ ∧
    (if (o : ℚ) / lc + (o : ℚ) / lr > 0 then
        2 * ((o : ℚ) / lc) * ((o : ℚ) / lr) / ((o : ℚ) / lc + (o : ℚ) / lr) else 0) =
      harmonic_f1 ((o : ℚ) / lc) ((o : ℚ) / lr) := by
  have hp0 : 0 ≤ (o : ℚ) / lc := by positivity
  have hr0 : 0 ≤ (o : ℚ) / lr := by positivity
  have hp1 : (o : ℚ) / lc ≤ 1 := by
    rcases Nat.eq_zero_or_pos lc with h | h
    · subst h; simp
    · rw [div_le_one (by exact_mod_cast h)]
      exact_mod_cast h1
  have hr1 : (o : ℚ) / lr ≤ 1 := by
    rcases Nat.eq_zero_or_pos lr with h | h
    · subst h; simp
    · rw [div_le_one (by exact_mod_cast h)]
      exact_mod_cast h2
  have hf := harmonic_f1_mem_unit hp0 hp1 hr0 hr1
  unfold harmonic_f1 at hf
  exact ⟨⟨hp0, hp1, hr0, hr1, hf.1, hf.2⟩, rfl⟩

lemma zero_score_in_unit : score_in_unit ⟨0, 0, 0⟩ := by
  unfold score_in_unit
  norm_num

lemma ngrams_eq_nil_iff (tokens : List Tok) (n : ℕ) (hn : 1 ≤ n) :
    ngrams tokens n = [] ↔ tokens.length < n := by
  unfold ngrams
  rw [List.map_eq_nil_iff, List.range_eq_nil]
  omega

lemma ngrams_length (tokens : List Tok) (n : ℕ) :
    (ngrams tokens n).length = tokens.length + 1 - n := by
  unfold ngrams
  rw [List.length_map, List.length_range]

/-! ### Claim C1 -/

/-- C1: for every candidate, reference and n ≥ 1, `_ngram_score` computes
exactly what §4.2 states: overlap as the sum over distinct n-grams of the
minimum of the two multiset counts, precision and recall as overlap over
the candidate/reference n-gram totals, f1 as the guarded harmonic mean, and
the all-zero score whenever a token sequence is empty or shorter than n. -/
theorem ngram_score_matches_spec (candidate reference : List Char) (n : ℕ) (hn : 1 ≤ n) :
    ngram_score candidate reference n = ngram_score_spec candidate reference n := by
  simp only [ngram_score, ngram_score_spec]
  by_cases hc : tokenize candidate = []
  · simp [hc]
  by_cases hr : tokenize reference = []
  · simp [hc, hr]
  by_cases hcl : (tokenize candidate).length < n
  · have h := (ngrams_eq_nil_iff (tokenize candidate) n hn).2 hcl
    simp [hc, hr, hcl, h]
  by_cases hrl : (tokenize reference).length < n
  · have h := (ngrams_eq_nil_iff (tokenize reference) n hn).2 hrl
    simp [hc, hr, hcl, hrl, h]
  have h1 : ¬ ngrams (tokenize candidate) n = [] := fun h => hcl ((ngrams_eq_nil_iff _ n hn).1 h)
  have h2 : ¬ ngrams (tokenize reference) n = [] := fun h => hrl ((ngrams_eq_nil_iff _ n hn).1 h)
  rw [if_neg (show ¬(tokenize candidate = [] ∨ tokenize reference = []) by simp [hc, hr]),
    if_neg (show ¬(ngrams (tokenize candidate) n = [] ∨ ngrams (tokenize reference) n = []) by
      simp [h1, h2]),
    if_neg (show ¬(tokenize candidate = [] ∨ tokenize reference = [] ∨
      (tokenize candidate).length < n ∨ (tokenize reference).length < n) by
      simp [hc, hr, hcl, hrl]),
    overlap_spec_eq, ngrams_length, ngrams_length]

/-- C1 witness: the theorem applied at a concrete input, plus a concrete
evaluation of the scorer (the §8 scenario: "the cat sat" against
"the cat sat on the mat" gives precision 1, recall 1/2, f1 2/3). -/
theorem ngram_score_matches_spec_witness :
    1 ≤ 1 ∧
    ngram_score "the cat sat".toList "the cat sat on the mat".toList 1 =
      ngram_score_spec "the cat sat".toList "the cat sat on the mat".toList 1 ∧
    ngram_score "the cat sat".toList "the cat sat on the mat".toList 1 =
      ⟨1, 1/2, 2/3⟩ := by
  refine ⟨by decide,
    ngram_score_matches_spec "the cat sat".toList "the cat sat on the mat".toList 1 (by decide),
    ?_⟩
  have hov : overlap_count (ngrams (tokenize "the cat sat".toList) 1)
      (ngrams (tokenize "the cat sat on the mat".toList) 1) = 3 := by decide
  have hl1 : (ngrams (tokenize "the cat sat".toList) 1).length = 3 := by decide
  have hl2 : (ngrams (tokenize "the cat sat on the mat".toList) 1).length = 6 := by decide
  have hne1 : ¬ tokenize "the cat sat".toList = [] := by decide
  have hne2 : ¬ tokenize "the cat sat on the mat".toList = [] := by decide
  have hne3 : ¬ ngrams (tokenize "the cat sat".toList) 1 = [] := by decide
  have hne4 : ¬ ngrams (tokenize "the cat sat on the mat".toList) 1 = [] := by decide
  simp only [ngram_score, hov, hl1, hl2, hne1, hne2, hne3, hne4, false_or, if_false,
    RougeScore.mk.injEq]
  norm_num

/-! ### LCS lemmas -/

lemma lcs_length_le_left (a b : List Tok) : lcs_length a b ≤ a.length := by
  induction a generalizing b with
  | nil => simp [lcs_length]
  | cons x xs ih =>
      induction b with
      | nil => simp [lcs_length]
      | cons y ys ihb =>
          rw [lcs_length]
          split_ifs with h
          · simpa using Nat.succ_le_succ (ih ys)
          · exact max_le (le_trans (ih (y :: ys)) (by simp)) ihb

lemma lcs_length_le_right (a b : List Tok) : lcs_length a b ≤ b.length := by
  induction a generalizing b with
  | nil => simp [lcs_length]
  | cons x xs ih =>
      induction b with
      | nil => simp [lcs_length]
      | cons y ys ihb =>
          rw [lcs_length]
          split_ifs with h
          · simpa using Nat.succ_le_succ (ih ys)
          · refine max_le (ih (y :: ys)) (le_trans ihb (by simp))

lemma lcs_length_comm (a b : List Tok) : lcs_length a b = lcs_length b a := by
  induction a generalizing b with
  | nil => cases b <;> simp [lcs_length]
  | cons x xs ih =>
      induction b with
      | nil => simp [lcs_length]
      | cons y ys ihb =>
          rw [lcs_length, lcs_length]
          by_cases h : x = y
          · rw [if_pos h, if_pos h.symm, ih ys]
          · rw [if_neg h, if_neg (fun hyx => h hyx.symm), ih (y :: ys), ← ihb,
              Nat.max_comm]

/-! ### Claim C4 -/

/-- The C4 property at one input: both the n-gram score and the LCS score
have all components in `[0, 1]`, and each score's f1 is the harmonic mean
of its own precision and recall. -/
def scores_admissible (candidate reference : List Char) (n : ℕ) : Prop :=
  (score_in_unit (ngram_score candidate reference n) ∧
    (ngram_score candidate reference n).f1 =
      harmonic_f1 (ngram_score candidate reference n).precision
        (ngram_score candidate reference n).recall) ∧
  (score_in_unit (rouge_l candidate reference) ∧
    (rouge_l candidate reference).f1 =
      harmonic_f1 (rouge_l candidate reference).precision
        (rouge_l candidate reference).recall)

/-- C4: for every candidate and reference, every score produced by the
n-gram scorer (n ≥ 1, covering the unigram and bigram entry points) and by
the LCS scorer has precision, recall and f1 in `[0, 1]`, and its f1 is
determined by its own precision and recall as their guarded harmonic
mean. -/
theorem score_components_in_unit (candidate reference : List Char) (n : ℕ) (hn : 1 ≤ n) :
    scores_admissible candidate reference n := by
  unfold scores_admissible
  constructor
  · simp only [ngram_score]
    by_cases h1 : tokenize candidate = [] ∨ tokenize reference = []
    · rw [if_pos h1]
      exact ⟨zero_score_in_unit, by simp [harmonic_f1]⟩
    rw [if_neg h1]
    by_cases h2 : ngrams (tokenize candidate) n = [] ∨ ngrams (tokenize reference) n = []
    · rw [if_pos h2]
      exact ⟨zero_score_in_unit, by simp [harmonic_f1]⟩
    rw [if_neg h2]
    exact score_shape _ _ _ (overlap_le_left _ _) (overlap_le_right _ _)
  · simp only [rouge_l]
    by_cases h1 : tokenize candidate = [] ∨ tokenize reference = []
    · rw [if_pos h1]
      exact ⟨zero_score_in_unit, by simp [harmonic_f1]⟩
    rw [if_neg h1]
    exact score_shape _ _ _ (lcs_length_le_left _ _) (lcs_length_le_right _ _)

/-- C4 witness: the bounds at a concrete input. -/
theorem score_components_in_unit_witness :
    1 ≤ 1 ∧ scores_admissible "the cat sat".toList "the cat sat on the mat".toList 1 :=
  ⟨by decide,
   score_components_in_unit "the cat sat".toList "the cat sat on the mat".toList 1 (by decide)⟩

/-! ### Claim C6 -/

/-- C6 counterexample: the claim says f1 is invariant under the
candidate/reference swap *only when* the two token sequences have equal
length, but for candidate "a b" and reference "a" the lengths differ (2
vs 1) while f1 is the same (2/3) in both directions. -/
theorem rouge_l_swap_counterexample :
    (rouge_l "a b".toList "a".toList).f1 = (rouge_l "a".toList "a b".toList).f1 ∧
    (tokenize "a b".toList).length ≠ (tokenize "a".toList).length := by
  constructor
  · have ht1 : tokenize "a b".toList = [['a'], ['b']] := by decide
    have ht2 : tokenize "a".toList = [['a']] := by decide
    have h1 : lcs_length [['a'], ['b']] [['a']] = 1 := by simp [lcs_length]
    have h2 : lcs_length [['a']] [['a'], ['b']] = 1 := by simp [lcs_length]
    simp only [rouge_l, ht1, ht2, h1, h2]
    norm_num
    simp
  · decide

/-- C6 amended: swapping the candidate and reference of the LCS scorer
swaps precision and recall and always leaves f1 unchanged (no equal-length
side condition is needed). -/
theorem rouge_l_swap (candidate reference : List Char) :
    (rouge_l reference candidate).precision = (rouge_l candidate reference).recall ∧
    (rouge_l reference candidate).recall = (rouge_l candidate reference).precision ∧
    (rouge_l reference candidate).f1 = (rouge_l candidate reference).f1 := by
  simp only [rouge_l]
  by_cases hc : tokenize candidate = []
  · simp [hc]
  by_cases hr : tokenize reference = []
  · simp [hc, hr]
  rw [if_neg (show ¬(tokenize reference = [] ∨ tokenize candidate = []) by simp [hc, hr]),
    if_neg (show ¬(tokenize candidate = [] ∨ tokenize reference = []) by simp [hc, hr]),
    lcs_length_comm (tokenize reference) (tokenize candidate)]
  refine ⟨rfl, rfl, ?_⟩
  set p : ℚ := (lcs_length (tokenize candidate) (tokenize reference) : ℚ) /
    ((tokenize candidate).length : ℚ) with hp
  set r : ℚ := (lcs_length (tokenize candidate) (tokenize reference) : ℚ) /
    ((tokenize reference).length : ℚ) with hr2
  show (if r + p > 0 then 2 * r * p / (r + p) else 0) =
    (if p + r > 0 then 2 * p * r / (p + r) else 0)
  split_ifs with h1 h2
  · ring
  · exact absurd (by linarith : p + r > 0) h2
  · exact absurd (by linarith : r + p > 0) h1
  · rfl

/-! ### Lexical similarity (evaluator.py, `SemanticSimilarity`) -/

/-- Document frequency of a term over the 2-document corpus:
`(1 if w in set(cand_tokens) else 0) + (1 if w in set(ref_tokens) else 0)`. -/
def doc_freq (cand_tokens ref_tokens : List Tok) (w : Tok) : ℕ :=
  (if w ∈ cand_tokens then 1 else 0) + (if w ∈ ref_tokens then 1 else 0)

/-- IDF for the 2-document corpus: `log((1.0 + 2.0) / (1.0 + df)) + 1.0`. -/
noncomputable def idf (cand_tokens ref_tokens : List Tok) (w : Tok) : ℝ :=
  Real.log ((1 + 2) / (1 + (doc_freq cand_tokens ref_tokens w : ℝ))) + 1

/-- Term frequency: `counts.get(w, 0) / len(tokens)`. -/
noncomputable def tf (tokens : List Tok) (w : Tok) : ℝ :=
  (tokens.count w : ℝ) / (tokens.length : ℝ)

/-- TF-IDF weight of `w` in one document of the 2-document corpus. -/
noncomputable def tfidf (doc cand_tokens ref_tokens : List Tok) (w : Tok) : ℝ :=
  tf doc w * idf cand_tokens ref_tokens w

/-- The shared vocabulary `sorted(set(cand_tokens) | set(ref_tokens))`,
modelled as the deduplicated concatenation: the dot product and the two
norms below are sums over the vocabulary and do not depend on its
enumeration order, so the sort is omitted. -/
def vocab (cand_tokens ref_tokens : List Tok) : List Tok :=
  (cand_tokens ++ ref_tokens).dedup

/-- `SemanticSimilarity._fallback_similarity`: pure TF-IDF cosine
similarity. The positional vectors `cand_tfidf`/`ref_tfidf` of the source
are represented by their per-word values over the shared vocabulary. -/
noncomputable def fallback_similarity (candidate reference : List Char) : ℝ :=
  let cand_tokens := tokenize candidate
  let ref_tokens := tokenize reference
  if cand_tokens = [] ∨ ref_tokens = [] then 0 else
  let v := vocab cand_tokens ref_tokens
  let dot := (v.map fun w =>
    tfidf cand_tokens cand_tokens ref_tokens w * tfidf ref_tokens cand_tokens ref_tokens w).sum
  let mag_a := Real.sqrt ((v.map fun w =>
    tfidf cand_tokens cand_tokens ref_tokens w *
      tfidf cand_tokens cand_tokens ref_tokens w).sum)
  let mag_b := Real.sqrt ((v.map fun w =>
    tfidf ref_tokens cand_tokens ref_tokens w *
      tfidf ref_tokens cand_tokens ref_tokens w).sum)
  if mag_a = 0 ∨ mag_b = 0 then 0 else dot / (mag_a * mag_b)

/-- `SemanticSimilarity.score`: the empty/whitespace guard followed by the
pure fallback path (the sklearn branch of the source is modelled by its
`except ImportError` fallback, which §9 of the spec designates as the
canonical algorithm). -/
noncomputable def similarity_score (candidate reference : List Char) : ℝ :=
  if py_strip candidate = [] ∨ py_strip reference = [] then 0
  else fallback_similarity candidate reference

/-! ### Tokenizer lemmas -/

lemma split_aux_ne_nil_of_acc (s : List Char) :
    ∀ acc : List Char, acc ≠ [] → split_aux acc s ≠ [] := by
  induction s with
  | nil => intro acc h; simp [split_aux, h]
  | cons c rest ih =>
      intro acc h
      rw [split_aux]
      split_ifs with h1
      · simp [h]
      · exact ih (c :: acc) (by simp)

lemma py_split_eq_nil_iff (s : List Char) :
    py_split s = [] ↔ ∀ c ∈ s, c.isWhitespace := by
  unfold py_split
  induction s with
  | nil => simp [split_aux]
  | cons c rest ih =>
      rw [split_aux]
      by_cases h : c.isWhitespace
      · simp only [h, if_true, if_pos rfl]
        simp only [ih, List.mem_cons]
        constructor
        · intro hall x hx
          rcases hx with hx | hx
          · subst hx; exact h
          · exact hall x hx
        · intro hall x hx
          exact hall x (Or.inr hx)
      · simp only [h, if_false]
        constructor
        · intro habs
          exact absurd habs (split_aux_ne_nil_of_acc rest [c] (by simp))
        · intro hall
          exact absurd (hall c (by simp)) (by simp [h])

lemma forall_mem_dropWhile_iff (p : Char → Bool) (s : List Char) :
    (∀ c ∈ s.dropWhile p, p c) ↔ ∀ c ∈ s, p c := by
  constructor
  · intro h c hc
    rw [← List.takeWhile_append_dropWhile (p := p) (l := s), List.mem_append] at hc
    rcases hc with hc | hc
    · exact List.mem_takeWhile_imp hc
    · exact h c hc
  · intro h c hc
    exact h c (List.Sublist.mem hc (List.dropWhile_sublist p))

lemma py_strip_eq_nil_iff (s : List Char) :
    py_strip s = [] ↔ ∀ c ∈ s, c.isWhitespace := by
  unfold py_strip
  rw [List.reverse_eq_nil_iff, List.dropWhile_eq_nil_iff]
  constructor
  · intro h
    rw [← forall_mem_dropWhile_iff Char.isWhitespace s]
    intro x hx
    exact h x (by simpa using hx)
  · intro h c hc
    exact h c (List.Sublist.mem (by simpa using hc) (List.dropWhile_sublist _))

/-- The ASCII lowering of a basic latin letter is never whitespace, and
lowering leaves every other character unchanged. -/
lemma ofNat_letter_not_whitespace (m : ℕ) (h1 : 97 ≤ m) (h2 : m ≤ 122) :
    (Char.ofNat m).isWhitespace = false := by
  have hv : m.isValidChar := Or.inl (by omega)
  have ht : (Char.ofNat m).toNat = m := by
    rw [Char.ofNat, dif_pos hv]
    simp [Char.ofNatAux, Char.toNat, UInt32.toNat]
  have hsp : (' ' : Char).toNat = 32 := by decide
  have hta : ('\t' : Char).toNat = 9 := by decide
  have htr : ('\r' : Char).toNat = 13 := by decide
  have htn : ('\n' : Char).toNat = 10 := by decide
  have e1 : Char.ofNat m ≠ ' ' := fun he => by rw [he, hsp] at ht; omega
  have e2 : Char.ofNat m ≠ '\t' := fun he => by rw [he, hta] at ht; omega
  have e3 : Char.ofNat m ≠ '\r' := fun he => by rw [he, htr] at ht; omega
  have e4 : Char.ofNat m ≠ '\n' := fun he => by rw [he, htn] at ht; omega
  simp [Char.isWhitespace, e1, e2, e3, e4]

lemma toLower_isWhitespace (c : Char) :
    (Char.toLower c).isWhitespace = c.isWhitespace := by
  rw [Char.toLower]
  split_ifs with h
  · obtain ⟨h1, h2⟩ := h
    have e1 : c ≠ ' ' := fun he => by rw [he] at h1; exact absurd h1 (by decide)
    have e2 : c ≠ '\t' := fun he => by rw [he] at h1; exact absurd h1 (by decide)
    have e3 : c ≠ '\r' := fun he => by rw [he] at h1; exact absurd h1 (by decide)
    have e4 : c ≠ '\n' := fun he => by rw [he] at h1; exact absurd h1 (by decide)
    rw [ofNat_letter_not_whitespace (c.toNat + 32) (by omega) (by omega)]
    simp [Char.isWhitespace, e1, e2, e3, e4]
  · rfl

lemma tokenize_ne_nil_of_strip (x : List Char) (h : py_strip x ≠ []) :
    tokenize x ≠ [] := by
  intro habs
  apply h
  rw [py_strip_eq_nil_iff]
  intro c hc
  have hall := (py_split_eq_nil_iff (x.map Char.toLower)).1 habs
  have := hall (Char.toLower c) (List.mem_map_of_mem Char.toLower hc)
  rwa [toLower_isWhitespace] at this

/-! ### Similarity lemmas -/

lemma idf_comm (a b : List Tok) (w : Tok) : idf b a w = idf a b w := by
  unfold idf doc_freq
  rw [add_comm (if w ∈ b then 1 else 0)]

lemma vocab_perm (a b : List Tok) : (vocab b a).Perm (vocab a b) := by
  refine (List.perm_ext_iff_of_nodup (List.nodup_dedup _) (List.nodup_dedup _)).2 ?_
  intro w
  simp [vocab, List.mem_dedup, or_comm]

lemma sum_map_congr (v : List Tok) (f g : Tok → ℝ) (h : ∀ w, f w = g w) :
    (v.map f).sum = (v.map g).sum := by
  rw [funext h]

lemma sum_tfidf_pair_symm (ta tb d e : List Tok) :
    ((vocab tb ta).map fun w => tfidf d tb ta w * tfidf e tb ta w).sum =
    ((vocab ta tb).map fun w => tfidf d ta tb w * tfidf e ta tb w).sum := by
  rw [sum_map_congr _ _ (fun w => tfidf d ta tb w * tfidf e ta tb w)
    (fun w => by unfold tfidf; rw [idf_comm])]
  exact ((vocab_perm ta tb).map _).sum_eq

lemma fallback_similarity_symm (a b : List Char) :
    fallback_similarity b a = fallback_similarity a b := by
  simp only [fallback_similarity]
  by_cases hc : tokenize a = []
  · simp [hc]
  by_cases hr : tokenize b = []
  · simp [hc, hr]
  rw [if_neg (show ¬(tokenize b = [] ∨ tokenize a = []) by simp [hc, hr]),
    if_neg (show ¬(tokenize a = [] ∨ tokenize b = []) by simp [hc, hr])]
  set ta := tokenize a
  set tb := tokenize b
  have hdot : ((vocab tb ta).map fun w =>
      tfidf tb tb ta w * tfidf ta tb ta w).sum =
      ((vocab ta tb).map fun w => tfidf ta ta tb w * tfidf tb ta tb w).sum := by
    rw [sum_tfidf_pair_symm]
    exact sum_map_congr _ _ _ (fun w => mul_comm _ _)
  have hmagA : ((vocab tb ta).map fun w =>
      tfidf tb tb ta w * tfidf tb tb ta w).sum =
      ((vocab ta tb).map fun w => tfidf tb ta tb w * tfidf tb ta tb w).sum :=
    sum_tfidf_pair_symm ta tb tb tb
  have hmagB : ((vocab tb ta).map fun w =>
      tfidf ta tb ta w * tfidf ta tb ta w).sum =
      ((vocab ta tb).map fun w => tfidf ta ta tb w * tfidf ta ta tb w).sum :=
    sum_tfidf_pair_symm ta tb ta ta
  rw [hdot, hmagA, hmagB]
  by_cases hz : Real.sqrt ((List.map (fun w => tfidf ta ta tb w * tfidf ta ta tb w)
      (vocab ta tb)).sum) = 0 ∨
      Real.sqrt ((List.map (fun w => tfidf tb ta tb w * tfidf tb ta tb w) (vocab ta tb)).sum) = 0
  · rw [if_pos (by tauto), if_pos (by tauto)]
  · rw [if_neg (by tauto), if_neg (by tauto), mul_comm]

/-! ### Claim C5 -/

/-- The C5 property: lexical similarity is symmetric; on any text that is
nonempty after stripping whitespace, the self-similarity is exactly 1; and
the similarity is 0 whenever either input is empty or whitespace-only. -/
def similarity_contract (a b x : List Char) : Prop :=
  similarity_score a b = similarity_score b a ∧
  (py_strip x ≠ [] → similarity_score x x = 1) ∧
  (py_strip a = [] ∨ py_strip b = [] → similarity_score a b = 0)

/-- C5: lexical similarity is symmetric, self-similarity of a
non-whitespace text is 1, and similarity of an empty/whitespace-only input
is exactly 0. -/
theorem similarity_score_props (a b x : List Char) : similarity_contract a b x := by
  refine ⟨?_, ?_, ?_⟩
  · unfold similarity_score
    by_cases h1 : py_strip a = []
    · simp [h1]
    by_cases h2 : py_strip b = []
    · simp [h1, h2]
    rw [if_neg (by simp [h1, h2]), if_neg (by simp [h1, h2]),
      fallback_similarity_symm]
  · intro hx
    have htok : tokenize x ≠ [] := tokenize_ne_nil_of_strip x hx
    unfold similarity_score
    rw [if_neg (by simp [hx])]
    simp only [fallback_similarity]
    rw [if_neg (by simp [htok])]
    set t := tokenize x with htdef
    have hidf : ∀ w ∈ vocab t t, idf t t w = 1 := by
      intro w hw
      have hmem : w ∈ t := by
        have := (List.mem_dedup.1 hw)
        simpa [List.mem_append, or_self] using this
      unfold idf doc_freq
      rw [if_pos hmem]
      norm_num [Real.log_one]
    have hsq : ∀ w, tfidf t t t w * tfidf t t t w = tf t w * idf t t w * (tf t w * idf t t w) :=
      fun w => rfl
    set S := ((vocab t t).map fun w => tfidf t t t w * tfidf t t t w).sum with hS
    have hSnonneg : 0 ≤ S := by
      rw [hS]
      apply List.sum_nonneg
      intro r hr
      rcases List.mem_map.1 hr with ⟨w, _, rfl⟩
      exact mul_self_nonneg _
    have hSpos : 0 < S := by
      rcases List.exists_mem_of_ne_nil t htok with ⟨w0, hw0⟩
      have hw0v : w0 ∈ vocab t t := by
        simp [vocab, List.mem_dedup, hw0]
      have hterm : 0 < tfidf t t t w0 * tfidf t t t w0 := by
        have hidf0 : idf t t w0 = 1 := hidf w0 hw0v
        have htf : 0 < tf t w0 := by
          unfold tf
          apply div_pos
          · exact_mod_cast List.count_pos_iff.2 hw0
          · exact_mod_cast List.length_pos_of_ne_nil htok
        unfold tfidf
        rw [hidf0, mul_one]
        exact mul_pos htf htf
      rw [hS]
      calc (0 : ℝ) < tfidf t t t w0 * tfidf t t t w0 := hterm
        _ ≤ _ := by
            apply List.single_le_sum _ _ (List.mem_map_of_mem _ hw0v)
            intro r hr
            rcases List.mem_map.1 hr with ⟨w, _, rfl⟩
            exact mul_self_nonneg _
    have hsqrt : Real.sqrt S ≠ 0 := ne_of_gt (Real.sqrt_pos.2 hSpos)
    rw [if_neg (by simp [hsqrt])]
    rw [Real.mul_self_sqrt hSnonneg]
    exact div_self (ne_of_gt hSpos)
  · intro h
    unfold similarity_score
    rw [if_pos h]

/-- C5 witness: the three parts of the contract at concrete inputs. -/
theorem similarity_score_props_witness :
    similarity_score "ab".toList "cd x".toList = similarity_score "cd x".toList "ab".toList ∧
    similarity_score "hi there".toList "hi there".toList = 1 ∧
    similarity_score "  ".toList "hi".toList = 0 :=
  ⟨(similarity_score_props "ab".toList "cd x".toList "a".toList).1,
   (similarity_score_props "x".toList "y".toList "hi there".toList).2.1 (by decide),
   (similarity_score_props "  ".toList "hi".toList "a".toList).2.2 (Or.inl (by decide))⟩

end PromptEngineeringLab

namespace PromptLab

/-! ### Evaluator (prompt_lab/evaluator.py) -/

/-- `PromptEvaluator.completeness`: the fraction of expected topics found
as case-insensitive substrings of the output (`t.lower() in output_lower`
is the contiguous-substring test, i.e. `List.IsInfix`), and vacuously 1 on
an empty topic list. -/
def completeness (output : List Char) (expected_topics : List (List Char)) : ℚ :=
  if expected_topics = [] then 1 else
  let output_lower := output.map Char.toLower
  let found := expected_topics.countP fun t => decide ((t.map Char.toLower) <:+: output_lower)
  (found : ℚ) / (expected_topics.length : ℚ)

/-- The C8 property: vacuous truth on the empty topic list, the general
case-insensitive-substring fraction, and the spec's concrete scenario
(2 of the 4 topics occur in "The return policy is 30 days."). -/
def completeness_contract (output : List Char) (topics : List (List Char)) : Prop :=
  completeness output [] = 1 ∧
  (topics ≠ [] → completeness output topics =
    ((topics.countP fun t =>
      decide ((t.map Char.toLower) <:+: (output.map Char.toLower))) : ℚ) /
      (topics.length : ℚ)) ∧
  completeness "The return policy is 30 days.".toList
    ["return".toList, "days".toList, "electronics".toList, "receipt".toList] = 1 / 2

/-- C8: completeness of any output against the empty topic list is 1, in
general completeness is the fraction of topics appearing as
case-insensitive substrings, and the concrete scenario evaluates to 1/2. -/
theorem completeness_props (output : List Char) (topics : List (List Char)) :
    completeness_contract output topics := by
  refine ⟨by simp [completeness], ?_, ?_⟩
  · intro h
    simp only [completeness, if_neg h]
  · have hcount : (["return".toList, "days".toList, "electronics".toList,
        "receipt".toList].countP fun t => decide ((t.map Char.toLower) <:+:
          ("The return policy is 30 days.".toList.map Char.toLower))) = 2 := by decide
    have hne : (["return".toList, "days".toList, "electronics".toList,
        "receipt".toList] : List (List Char)) ≠ [] := by decide
    simp only [completeness, if_neg hne, hcount]
    norm_num

/-- C8 witness: the contract at a concrete nonempty topic list. -/
theorem completeness_props_witness :
    completeness_contract "電".toList [] ∧
    completeness "ab".toList ["a".toList] =
      ((([( "a".toList )] : List (List Char)).countP fun t =>
        decide ((t.map Char.toLower) <:+: ("ab".toList.map Char.toLower))) : ℚ) /
        ((["a".toList] : List (List Char)).length : ℚ) :=
  ⟨completeness_props "電".toList [],
   (completeness_props "ab".toList ["a".toList]).2.1 (by decide)⟩

/-! ### A/B tester (prompt_lab/ab_tester.py) -/

/-- Python `round(x, k)` to an integer scale: round half to even. -/
noncomputable def py_round_int (x : ℝ) : ℤ :=
  if Int.fract x = 1 / 2 then (if Even ⌊x⌋ then ⌊x⌋ else ⌊x⌋ + 1) else round x

/-- Python `round(x, k)`: round-half-even at `k` decimal digits. -/
noncomputable def py_round (k : ℕ) (x : ℝ) : ℝ :=
  (py_round_int (x * 10 ^ k) : ℝ) / 10 ^ k

/-- `VariantResult` from ab_tester.py. -/
structure VariantResult where
  pattern_name : String
  scores : List ℝ
  mean : ℝ
  std : ℝ
  n : ℕ

/-- `ABTestResult` from ab_tester.py. -/
structure ABTestResult where
  variant_a : VariantResult
  variant_b : VariantResult
  z_score : ℝ
  p_value : ℝ
  is_significant : Prop
  winner : String
  lift : ℝ

/-- `ABTester._compute_variant`: sample mean and population standard
deviation (0 for n < 2), rounded to 4 decimal places; all-zero defaults
for an empty sample. The variance uses the unrounded mean, as in the
source. -/
noncomputable def compute_variant (name : String) (scores : List ℝ) : VariantResult :=
  let n := scores.length
  if n = 0 then ⟨name, [], 0, 0, 0⟩ else
  let mean := scores.sum / (n : ℝ)
  let variance := if n > 1 then ((scores.map fun s => (s - mean) ^ 2).sum) / (n : ℝ) else 0
  let std := Real.sqrt variance
  ⟨name, scores, py_round 4 mean, py_round 4 std, n⟩

/-- `ABTester._z_test`. -/
noncomputable def z_test (va vb : VariantResult) : ℝ :=
  if va.n = 0 ∨ vb.n = 0 then 0 else
  let se := Real.sqrt (va.std ^ 2 / (va.n : ℝ) + vb.std ^ 2 / (vb.n : ℝ))
  if se = 0 then 0 else (va.mean - vb.mean) / se

/-- `ABTester._p_value`: the Abramowitz–Stegun normal-tail approximation
in Horner form, doubled for two-tailedness, 0 for `|z| > 8`, rounded to 6
decimal places. -/
noncomputable def p_value (z : ℝ) : ℝ :=
  let x := |z|
  if x > 8 then 0 else
  let t := 1 / (1 + 0.2316419 * x)
  let d : ℝ := 0.3989422804014327
  let p := d * Real.exp (-x * x / 2) *
    (t * (0.3193815 + t * (-0.3565638 + t * (1.781478 + t * (-1.8212560 + t * 1.3302744)))))
  py_round 6 (2 * p)

/-- The p-value as §4.6 of the spec words it: the A–S coefficients applied
to powers of `t = 1/(1 + 0.2316419·|z|)` (expanded polynomial form),
scaled by the normal density at `|z|` (with the source's constant for
`1/sqrt(2π)`), doubled, saturating to 0 for `|z| > 8`. -/
noncomputable def p_value_spec (z : ℝ) : ℝ :=
  if |z| > 8 then 0 else
  let t := 1 / (1 + 0.2316419 * |z|)
  let phi := 0.3989422804014327 * Real.exp (-(|z| * |z|) / 2)
  py_round 6 (2 * (phi * (0.3193815 * t + (-0.3565638) * t ^ 2 + 1.781478 * t ^ 3 +
    (-1.8212560) * t ^ 4 + 1.3302744 * t ^ 5)))

open Classical in
/-- `ABTester.compare`, with the significance level passed explicitly
(`ABTester.__init__` stores it; the default is 0.05). -/
noncomputable def ab_compare (level : ℝ) (scores_a scores_b : List ℝ)
    (name_a name_b : String) : ABTestResult :=
  let va := compute_variant name_a scores_a
  let vb := compute_variant name_b scores_b
  let z := z_test va vb
  let p := p_value z
  let wl : String × ℝ :=
    if ¬ (p < level) then ("tie", 0)
    else if va.mean > vb.mean then
      (name_a, if vb.mean > 0 then (va.mean - vb.mean) / vb.mean * 100 else 0)
    else
      (name_b, if va.mean > 0 then (vb.mean - va.mean) / va.mean * 100 else 0)
  ⟨va, vb, py_round 4 z, py_round 4 p, p < level, wl.1, py_round 2 wl.2⟩

/-! ### Rounding and p-value lemmas -/

lemma py_round_zero (k : ℕ) : py_round k 0 = 0 := by
  simp [py_round, py_round_int, Int.fract]

lemma p_value_zero : p_value 0 = 1 := by
  simp only [p_value, abs_zero]
  rw [if_neg (by norm_num)]
  norm_num [Real.exp_zero, py_round, py_round_int, Int.fract, round_eq]

lemma z_test_zero_of_eq_mean (va vb : VariantResult) (h : va.mean = vb.mean) :
    z_test va vb = 0 := by
  simp only [z_test]
  split_ifs with h1 h2
  · rfl
  · rfl
  · rw [h, sub_self, zero_div]

/-! ### Claim C2 -/

/-- The C2 property: the z-statistic equals
`(mean_a - mean_b) / sqrt(std_a²/n_a + std_b²/n_b)` with 0 whenever either
sample is empty or the standard error is 0; the p-value saturates to 0 for
`|z| > 8` and otherwise equals the spec's expanded Abramowitz–Stegun
formula. -/
def z_and_p_contract (scores_a scores_b : List ℝ) (name_a name_b : String) (z : ℝ) : Prop :=
  (let va := compute_variant name_a scores_a
   let vb := compute_variant name_b scores_b
   (va.n = 0 ∨ vb.n = 0 → z_test va vb = 0) ∧
   (Real.sqrt (va.std ^ 2 / (va.n : ℝ) + vb.std ^ 2 / (vb.n : ℝ)) = 0 → z_test va vb = 0) ∧
   (va.n ≠ 0 → vb.n ≠ 0 → Real.sqrt (va.std ^ 2 / (va.n : ℝ) + vb.std ^ 2 / (vb.n : ℝ)) ≠ 0 →
     z_test va vb = (va.mean - vb.mean) / Real.sqrt (va.std ^ 2 / (va.n : ℝ) + vb.std ^ 2 / (vb.n : ℝ)))) ∧
  (|z| > 8 → p_value z = 0) ∧
  p_value z = p_value_spec z

/-- C2: the significance tester's z-statistic and two-tailed p-value are
exactly the formulas stated in §4.6 of the spec. -/
theorem z_p_formulas (scores_a scores_b : List ℝ) (name_a name_b : String) (z : ℝ) :
    z_and_p_contract scores_a scores_b name_a name_b z := by
  unfold z_and_p_contract
  refine ⟨⟨?_, ?_, ?_⟩, ?_, ?_⟩
  · intro h
    simp only [z_test, if_pos h]
  · intro h
    simp only [z_test]
    split_ifs with h1
    · rfl
    · rfl
  · intro h1 h2 h3
    simp only [z_test]
    rw [if_neg (by simp [h1, h2]), if_neg h3]
  · intro h
    simp only [p_value]
    rw [if_pos h]
  · simp only [p_value, p_value_spec]
    by_cases h : |z| > 8
    · rw [if_pos h, if_pos h]
    · rw [if_neg h, if_neg h]
      have harg : -|z| * |z| / 2 = -(|z| * |z|) / 2 := by ring
      rw [harg]
      congr 1
      ring

/-- C2 witness: an empty sample forces a zero z-statistic, and the p-value
saturates at a concrete `|z| > 8`. -/
theorem z_p_formulas_witness :
    z_test (compute_variant "a" [1]) (compute_variant "b" []) = 0 ∧ p_value 9 = 0 :=
  ⟨(z_p_formulas [1] [] "a" "b" 9).1.1 (Or.inr (by simp [compute_variant])),
   (z_p_formulas [1] [] "a" "b" 9).2.1
     (by rw [show |(9:ℝ)| = 9 from abs_of_nonneg (by norm_num)]; norm_num)⟩

/-! ### Claim C3 -/

/-- The C3 property: an insignificant comparison yields winner "tie" with
lift 0; a significant one yields the strictly-higher-mean variant's name as
winner, with lift the rounded relative improvement, 0 when the loser's
mean is not positive. -/
def winner_contract (level : ℝ) (scores_a scores_b : List ℝ) (name_a name_b : String) : Prop :=
  let r := ab_compare level scores_a scores_b name_a name_b
  (¬ r.is_significant → r.winner = "tie" ∧ r.lift = 0) ∧
  (r.is_significant →
    (r.variant_a.mean > r.variant_b.mean ∧ r.winner = name_a ∧
      r.lift = (if r.variant_b.mean > 0 then
        py_round 2 ((r.variant_a.mean - r.variant_b.mean) / r.variant_b.mean * 100) else 0)) ∨
    (r.variant_b.mean > r.variant_a.mean ∧ r.winner = name_b ∧
      r.lift = (if r.variant_a.mean > 0 then
        py_round 2 ((r.variant_b.mean - r.variant_a.mean) / r.variant_a.mean * 100) else 0)))

open Classical in
/-- C3: for any significance level at most 1 (the default is 0.05), the
comparison's winner is "tie" with lift 0 when insignificant, and otherwise
the variant with the strictly higher mean, with the guarded percentage
lift. -/
theorem ab_compare_winner (level : ℝ) (hlevel : level ≤ 1) (scores_a scores_b : List ℝ)
    (name_a name_b : String) :
    winner_contract level scores_a scores_b name_a name_b := by
  unfold winner_contract
  simp only [ab_compare]
  set va := compute_variant name_a scores_a with hva
  set vb := compute_variant name_b scores_b with hvb
  set p := p_value (z_test va vb) with hp
  constructor
  · intro hns
    have hns' : ¬ (p < level) := hns
    rw [if_pos hns']
    exact ⟨rfl, py_round_zero 2⟩
  · intro hsig
    have hsig' : p < level := hsig
    have hne : va.mean ≠ vb.mean := by
      intro heq
      have hz : z_test va vb = 0 := z_test_zero_of_eq_mean va vb heq
      rw [hz] at hp
      rw [hp, p_value_zero] at hsig'
      linarith
    rw [if_neg (by simpa using hsig')]
    by_cases hgt : va.mean > vb.mean
    · left
      rw [if_pos hgt]
      refine ⟨hgt, rfl, ?_⟩
      by_cases hb : vb.mean > 0
      · rw [if_pos hb, if_pos hb]
      · rw [if_neg hb, if_neg hb]
        exact py_round_zero 2
    · right
      have hlt : vb.mean > va.mean := lt_of_le_of_ne (not_lt.1 hgt) hne
      rw [if_neg hgt]
      refine ⟨hlt, rfl, ?_⟩
      by_cases ha : va.mean > 0
      · rw [if_pos ha, if_pos ha]
      · rw [if_neg ha, if_neg ha]
        exact py_round_zero 2

/-- C3 witness: the contract at the default significance level 0.05. -/
theorem ab_compare_winner_witness :
    winner_contract 0.05 [1, 2] [3, 4] "va" "vb" :=
  ab_compare_winner 0.05 (by norm_num) [1, 2] [3, 4] "va" "vb"

end PromptLab

namespace PromptEngineeringLab

/-! ### Optimizer (optimizer.py) -/

/-- `OptimizationResult` from optimizer.py; the history entries model the
`{"iteration": i, "template": t, "score": s}` dicts. -/
structure OptimizationResult where
  best_template : String
  best_score : ℝ
  iterations : ℕ
  improvement_pct : ℝ
  history : List (ℕ × String × ℝ)

/-- One call's worth of `random` decisions for `mutate_template`: the
operator chosen by `random.choice(["swap", "emphasize", "reorder"])`, the
two `randint` results, the choice between bold-wrapping and upper-casing,
and the permutation effected by `random.shuffle`. -/
structure MutationChoice where
  mut_type : Fin 3
  swap_idx : ℕ
  emph_idx : ℕ
  emph_bold : Bool
  shuffle : List String → List String

/-- Python `str.split()` on `String`: split at whitespace, dropping the
empty pieces. -/
def py_split_str (s : String) : List String :=
  (s.split Char.isWhitespace).filter (fun t => t ≠ "")

/-- Python `str.isupper()` (ASCII model): at least one cased character and
no lower-case character. -/
def is_upper_str (w : String) : Bool :=
  w.toList.any Char.isAlpha && w.toList.all (fun c => ¬ c.isLower)

/-- `PromptOptimizer.mutate_template`, the `random` calls supplied by an
explicit `MutationChoice`: the `randint(0, k)` results are reduced modulo
`k + 1`, and `shuffle` stands for the permutation `random.shuffle` picks.
`Char.ofNat 123` is the opening curly brace of the placeholder test. -/
def mutate_template (ch : MutationChoice) (template : String) : String :=
  let words := py_split_str template
  if words.length < 2 then template else
  match ch.mut_type.val with
  | 0 =>
      let idx := ch.swap_idx % (words.length - 1)
      let swapped := (words.take idx) ++
        (words.getD (idx + 1) "" :: words.getD idx "" :: words.drop (idx + 2))
      " ".intercalate swapped
  | 1 =>
      let idx := ch.emph_idx % words.length
      let word := words.getD idx ""
      if ¬ is_upper_str word ∧ ¬ word.contains (Char.ofNat 123) then
        let emphasis := if ch.emph_bold then "**" ++ word ++ "**" else word.toUpper
        " ".intercalate (words.set idx emphasis)
      else " ".intercalate words
  | _ =>
      let sentences := template.splitOn ". "
      if sentences.length > 1 then ". ".intercalate (ch.shuffle sentences)
      else " ".intercalate words

open Classical in
/-- `PromptOptimizer.random_search`: `random.choice(templates)` is
modelled by indexing with the oracle `pick i` reduced modulo the pool
size; `none` models the `ValueError` raised on an empty pool. -/
noncomputable def random_search (scorer : String → ℝ) (templates : List String)
    (pick : ℕ → ℕ) (n_iterations : ℕ) : Option OptimizationResult :=
  match templates with
  | [] => none
  | t0 :: _ =>
    let s0 := scorer t0
    let init : String × ℝ × List (ℕ × String × ℝ) := (t0, s0, [(0, t0, s0)])
    let res := (List.range' 1 (n_iterations - 1)).foldl (fun acc i =>
      let cand := templates.getD (pick i % templates.length) t0
      let sc := scorer cand
      let h := (i, cand, sc) :: acc.2.2
      if sc > acc.2.1 then (cand, sc, h) else (acc.1, acc.2.1, h)) init
    let improvement := if s0 ≠ 0 then (res.2.1 - s0) / s0 * 100 else 0
    some ⟨res.1, res.2.1, n_iterations, improvement, res.2.2.reverse⟩

open Classical in
/-- `PromptOptimizer.optimize`: mutation-based local search from one base
template, the per-iteration randomness supplied by `choices`. -/
noncomputable def optimize (scorer : String → ℝ) (choices : ℕ → MutationChoice)
    (base_template : String) (n_iterations : ℕ) : OptimizationResult :=
  let s0 := scorer base_template
  let init : String × ℝ × List (ℕ × String × ℝ) :=
    (base_template, s0, [(0, base_template, s0)])
  let res := (List.range' 1 (n_iterations - 1)).foldl (fun acc i =>
    let cand := mutate_template (choices i) acc.1
    let sc := scorer cand
    let h := (i, cand, sc) :: acc.2.2
    if sc > acc.2.1 then (cand, sc, h) else (acc.1, acc.2.1, h)) init
  let improvement := if s0 ≠ 0 then (res.2.1 - s0) / s0 * 100 else 0
  ⟨res.1, res.2.1, n_iterations, improvement, res.2.2.reverse⟩

/-- Each loop iteration appends exactly one history entry, so a fold over
the iteration indices grows the history by the index count. -/
lemma foldl_hist_length
    (f : String × ℝ × List (ℕ × String × ℝ) → ℕ → String × ℝ × List (ℕ × String × ℝ))
    (hf : ∀ acc i, ((f acc i).2.2).length = acc.2.2.length + 1) :
    ∀ (l : List ℕ) (acc : String × ℝ × List (ℕ × String × ℝ)),
      (((l.foldl f acc)).2.2).length = acc.2.2.length + l.length := by
  intro l
  induction l with
  | nil => intro acc; simp
  | cons x xs ih =>
      intro acc
      rw [List.foldl_cons, ih, hf]
      simp
      omega

/-! ### Claim C7 -/

/-- C7 counterexample: at `n_iterations = 0` both strategies still log the
baseline evaluation, so the trace has one history entry while
`iterations` is 0 — the logged entry count does not equal `iterations`. -/
theorem trace_zero_counterexample :
    (random_search (fun _ => (0 : ℝ)) ["a"] (fun _ => 0) 0).map
      (fun r => (r.history.length, r.iterations)) = some (1, 0) ∧
    (optimize (fun _ => (0 : ℝ)) (fun _ => ⟨0, 0, 0, false, id⟩) "a" 0).history.length = 1 ∧
    (optimize (fun _ => (0 : ℝ)) (fun _ => ⟨0, 0, 0, false, id⟩) "a" 0).iterations = 0 := by
  refine ⟨?_, ?_, ?_⟩ <;> simp [random_search, optimize]

/-- The C7 property at n ≥ 1: random search on a nonempty pool succeeds
with exactly n logged entries and `iterations = n`, and the mutation
optimizer's trace likewise. -/
def trace_length_contract (scorer : String → ℝ) (templates : List String) (pick : ℕ → ℕ)
    (choices : ℕ → MutationChoice) (base : String) (n : ℕ) : Prop :=
  (random_search scorer templates pick n).isSome ∧
  (∀ r, random_search scorer templates pick n = some r →
    r.history.length = n ∧ r.iterations = n) ∧
  (optimize scorer choices base n).history.length = n ∧
  (optimize scorer choices base n).iterations = n

/-- C7 amended: for every requested iteration count n ≥ 1, random search
(on a nonempty pool) and mutation-based optimization produce traces with
exactly n logged entries and `iterations = n` (at n = 0 both log one
entry while reporting 0 iterations; see the counterexample). -/
theorem trace_lengths (scorer : String → ℝ) (templates : List String) (pick : ℕ → ℕ)
    (choices : ℕ → MutationChoice) (base : String) (n : ℕ)
    (hn : 1 ≤ n) (ht : templates ≠ []) :
    trace_length_contract scorer templates pick choices base n := by
  obtain ⟨t0, ts, rfl⟩ := List.exists_cons_of_ne_nil ht
  unfold trace_length_contract
  have hlen_rs : ∀ (r : OptimizationResult),
      random_search scorer (t0 :: ts) pick n = some r → r.history.length = n := by
    intro r hr
    simp only [random_search, Option.some.injEq] at hr
    subst hr
    simp only [List.length_reverse]
    rw [foldl_hist_length]
    · simp [List.length_range']
      omega
    · intro acc i
      try simp only []
      split_ifs <;> simp
  refine ⟨by simp [random_search], ?_, ?_, ?_⟩
  · intro r hr
    refine ⟨hlen_rs r hr, ?_⟩
    simp only [random_search, Option.some.injEq] at hr
    subst hr
    rfl
  · simp only [optimize, List.length_reverse]
    rw [foldl_hist_length]
    · simp [List.length_range']
      omega
    · intro acc i
      try simp only []
      split_ifs <;> simp
  · rfl

/-- C7 witness: the contract at a concrete pool, base and n = 3. -/
theorem trace_lengths_witness :
    trace_length_contract (fun _ => 0) ["a"] (fun _ => 0)
      (fun _ => ⟨0, 0, 0, false, id⟩) "b" 3 :=
  trace_lengths (fun _ => 0) ["a"] (fun _ => 0) (fun _ => ⟨0, 0, 0, false, id⟩) "b" 3
    (by norm_num) (by simp)

end PromptEngineeringLab

namespace PromptEngineeringLab

/-! ### Versioning (versioning.py) -/

/-- `PromptVersion` from versioning.py; `created_at` carries the
`time.time()` float and the free-form metadata dict is an association
list. -/
structure PromptVersion where
  version_id : String
  template : String
  created_at : ℝ
  metadata : List (String × String)
  performance : List (String × ℝ)

/-- `PromptVersionManager` state: the id-keyed `_versions` dict is
modelled as a partial map, `_order` as the insertion-order list and
`_active_id` as the mutable active pointer. -/
structure PromptVersionManager where
  versions : String → Option PromptVersion
  order : List String
  active_id : Option String

/-- A freshly constructed manager: empty dict, empty order, no active
version. -/
def empty_manager : PromptVersionManager := ⟨fun _ => none, [], none⟩

/-- `dict.update` of a version's performance mapping by a batch of
metrics: existing keys are overwritten, new keys appended. -/
def update_performance (perf : List (String × ℝ)) (metrics : List (String × ℝ)) :
    List (String × ℝ) :=
  metrics.foldl (fun acc kv =>
    if acc.any (fun p => p.1 = kv.1) then acc.map (fun p => if p.1 = kv.1 then kv else p)
    else acc ++ [kv]) perf

/-- `PromptVersionManager.create_version`: the fresh `uuid4().hex[:8]` id
and the `time.time()` timestamp are supplied by the caller as oracles; the
new version is stored, appended to the order, and made active. -/
def create_version (mgr : PromptVersionManager) (fresh_id : String) (now : ℝ)
    (template : String) (metadata : List (String × String)) :
    PromptVersionManager × PromptVersion :=
  let v : PromptVersion := ⟨fresh_id, template, now, metadata, []⟩
  (⟨fun k => if k = fresh_id then some v else mgr.versions k,
    mgr.order ++ [fresh_id], some fresh_id⟩, v)

/-- `PromptVersionManager.get_version`:
`self._versions.get(version_id)`. The `Except` result type records that
this method raises no exception — a missing id yields `.ok none` (Python
`None`), never an error. -/
def get_version (mgr : PromptVersionManager) (version_id : String) :
    Except String (Option PromptVersion) :=
  .ok (mgr.versions version_id)

/-- `PromptVersionManager.record_performance`: returns `False` (leaving
the manager unchanged) when the id is unknown; never raises. -/
def record_performance (mgr : PromptVersionManager) (version_id : String)
    (metrics : List (String × ℝ)) : Except String (PromptVersionManager × Bool) :=
  match mgr.versions version_id with
  | none => .ok (mgr, false)
  | some v => .ok
      (⟨fun k => if k = version_id then
          some { v with performance := update_performance v.performance metrics }
        else mgr.versions k, mgr.order, mgr.active_id⟩, true)

/-- `PromptVersionManager.rollback`: raises
`KeyError(f"Version {version_id} not found")` on an unknown id. -/
def rollback (mgr : PromptVersionManager) (version_id : String) :
    Except String (PromptVersionManager × PromptVersion) :=
  match mgr.versions version_id with
  | none => .error ("Version " ++ version_id ++ " not found")
  | some v => .ok (⟨mgr.versions, mgr.order, some version_id⟩, v)

/-- `PromptVersionManager.active_version`:
`self._versions.get(self._active_id)`, `None` when nothing is active. -/
def active_version (mgr : PromptVersionManager) : Option PromptVersion :=
  match mgr.active_id with
  | none => none
  | some vid => mgr.versions vid

/-! ### Claim C9 -/

/-- C9 counterexample: on a manager with no versions, looking up a missing
id through `get_version` returns `None` and `record_performance` returns
`False` — both are ordinary returns (`.ok`), not raised failures, contrary
to the claim that these lookups raise. -/
theorem missing_id_counterexample :
    get_version empty_manager "missing" = .ok none ∧
    record_performance empty_manager "missing" [("accuracy", 1)] =
      .ok (empty_manager, false) :=
  ⟨rfl, rfl⟩

/-- The C9 amended property: an unknown version id makes `get_version`
return `None` and `record_performance` return `False`, both without
raising, while `rollback` does raise a missing-key failure at lookup
time. -/
def missing_id_contract (mgr : PromptVersionManager) (vid : String)
    (metrics : List (String × ℝ)) : Prop :=
  get_version mgr vid = .ok none ∧
  record_performance mgr vid metrics = .ok (mgr, false) ∧
  rollback mgr vid = .error ("Version " ++ vid ++ " not found")

/-- C9 amended: unknown-id lookups in `get_version` and
`record_performance` return the sentinel values `None`/`False` instead of
raising; the missing-key failure is raised at lookup time only by
`rollback` (and `diff`). -/
theorem missing_id_behavior (mgr : PromptVersionManager) (vid : String)
    (metrics : List (String × ℝ)) (h : mgr.versions vid = none) :
    missing_id_contract mgr vid metrics := by
  refine ⟨?_, ?_, ?_⟩
  · simp [get_version, h]
  · simp [record_performance, h]
  · simp [rollback, h]

/-- C9 witness: the amended behavior on the empty manager. -/
theorem missing_id_behavior_witness : missing_id_contract empty_manager "x" [] :=
  missing_id_behavior empty_manager "x" [] rfl

/-! ### Claim C10 -/

/-- C10: after every `create_version`, the manager's `active_version` is
exactly the version just created, regardless of the previous state (the
fresh id points at the newly inserted version). -/
theorem create_version_sets_active (mgr : PromptVersionManager) (fresh_id : String)
    (now : ℝ) (template : String) (metadata : List (String × String)) :
    active_version (create_version mgr fresh_id now template metadata).1 =
      some (create_version mgr fresh_id now template metadata).2 := by
  simp [create_version, active_version]

end PromptEngineeringLab
